import Mathlib

/-!
Shallow embedding of `src/cabinet.js` (card-cabinet query pipeline, pagination
and the interactive-session registry), together with proofs of the spec claims.

Modelling conventions:
* JavaScript strings are modelled as Lean `String`, with the relevant string
  builtins (`toLowerCase`, `toUpperCase`, `includes`, `slice`, `trim`) embedded
  as executable character-list functions (ASCII case mapping).
* A record field that may be absent (`imageURL`, `cardCode`) is an
  `Option String`; accessing a method on an absent value is a thrown
  `TypeError`, modelled by `Except Unit`.  The four core fields are plain
  strings: the code only ever tests their truthiness before filtering invalid
  cards out, so an absent core field behaves exactly like the empty string.
* `String.prototype.localeCompare` is environment-defined; it is modelled as a
  deterministic collation that compares case-insensitively first (lower-cased
  code points) and breaks ties by raw code points.
* The event loop is single-threaded: registration, timer expiry and
  interaction dispatch are discrete steps on an explicit registry state.
-/

deriving instance DecidableEq for Except

namespace Cabinet

/-- ASCII lower-casing of one character (model of JS `toLowerCase`). -/
def charLower (c : Char) : Char :=
  if 65 ≤ c.toNat ∧ c.toNat ≤ 90 then Char.ofNat (c.toNat + 32) else c

/-- ASCII upper-casing of one character (model of JS `toUpperCase`). -/
def charUpper (c : Char) : Char :=
  if 97 ≤ c.toNat ∧ c.toNat ≤ 122 then Char.ofNat (c.toNat - 32) else c

/-- Model of JS `s.toLowerCase()`. -/
def jsToLower (s : String) : String := ⟨s.data.map charLower⟩

/-- Model of JS `s.toUpperCase()`. -/
def jsToUpper (s : String) : String := ⟨s.data.map charUpper⟩

/-- Does the second character list start with the first? -/
def startsWithL : List Char → List Char → Bool
  | [], _ => true
  | _ :: _, [] => false
  | a :: as, b :: bs => a == b && startsWithL as bs

/-- Does the second character list contain the first as a contiguous run? -/
def includesL (needle : List Char) : List Char → Bool
  | [] => needle.isEmpty
  | c :: rest => startsWithL needle (c :: rest) || includesL needle rest

/-- Model of JS `hay.includes(needle)` (substring test). -/
def jsIncludes (hay needle : String) : Bool := includesL needle.data hay.data

/-- Three-way lexicographic comparison of character lists by code point. -/
def cmpChars : List Char → List Char → Int
  | [], [] => 0
  | [], _ :: _ => -1
  | _ :: _, [] => 1
  | a :: as, b :: bs =>
    if a.toNat < b.toNat then -1
    else if b.toNat < a.toNat then 1
    else cmpChars as bs

/-- Model of JS `a.localeCompare(b)` with the default locale: primary
comparison is case-insensitive, ties are broken by raw code points. -/
def localeCompare (a b : String) : Int :=
  let p := cmpChars (jsToLower a).data (jsToLower b).data
  if p = 0 then cmpChars a.data b.data else p

/-- One card record as selected by `fetchUserCards` (`name group rarity
imageURL condition cardCode`).  The four core fields are plain strings (the
code observes only their truthiness before dropping invalid cards, so an
absent core field behaves like `""`); `imageURL` and `cardCode` may be absent
and are genuinely dereferenced, so they stay optional. -/
structure Card where
  name : String
  group : String
  rarity : String
  condition : String
  imageURL : Option String
  cardCode : Option String
deriving DecidableEq

/-- The options object built by `parseArguments`. -/
structure QueryOptions where
  searchTerms : List String
  excludeTerms : List String
  userId : String
  page : Int
  showDuplicates : Bool
deriving DecidableEq

/-- Source `isValidCard` (line 110): truthiness of the four core fields. -/
def isValidCard (c : Card) : Bool :=
  (c.name != "") && (c.group != "") && (c.rarity != "") && (c.condition != "")

/-- Source `cardMatchesTerm` (line 115).  The five disjuncts short-circuit left to
right; `card.cardCode.toLowerCase()` is reached only when none of the four
core fields matched, and throws (`.error`) when `cardCode` is absent. -/
def cardMatchesTerm (c : Card) (t : String) : Except Unit Bool :=
  if jsIncludes (jsToLower c.name) t
     || jsIncludes (jsToLower c.group) t
     || jsIncludes (jsToLower c.rarity) t
     || jsIncludes (jsToLower c.condition) t then .ok true
  else
    match c.cardCode with
    | some code => .ok (jsIncludes (jsToLower code) t)
    | none => .error ()

/-- JS `Array.prototype.every` with a throwing callback (short-circuit). -/
def allE {α : Type} (f : α → Except Unit Bool) : List α → Except Unit Bool
  | [] => .ok true
  | a :: as => do if (← f a) then allE f as else .ok false

/-- JS `Array.prototype.some` with a throwing callback (short-circuit). -/
def someE {α : Type} (f : α → Except Unit Bool) : List α → Except Unit Bool
  | [] => .ok false
  | a :: as => do if (← f a) then .ok true else someE f as

/-- JS `Array.prototype.filter` with a throwing callback: elements are
visited in order and the first thrown error aborts the whole call. -/
def filterE {α : Type} (f : α → Except Unit Bool) : List α → Except Unit (List α)
  | [] => .ok []
  | a :: as => do
    let b ← f a
    let rest ← filterE f as
    return if b then a :: rest else rest

/-- Source `matchesSearch` (line 123): some term matches some of the five fields.
The source repeats the same five-field chain as `cardMatchesTerm`. -/
def matchesSearch (c : Card) (terms : List String) : Except Unit Bool :=
  someE (fun t => cardMatchesTerm c t) terms

/-- Line 85: `cards.filter(card => this.isValidCard(card))`. -/
def validStage (cards : List Card) : List Card := cards.filter isValidCard

/-- Lines 92-96: when the expanded search-term list is non-empty, keep the
cards for which every term matches. -/
def includeStage (terms : List String) (cards : List Card) : Except Unit (List Card) :=
  if terms.isEmpty then .ok cards
  else filterE (fun c => allE (fun t => cardMatchesTerm c t) terms) cards

/-- Lines 98-100: when the expanded exclude-term list is non-empty, drop the
cards for which `matchesSearch` holds. -/
def excludeStage (terms : List String) (cards : List Card) : Except Unit (List Card) :=
  if terms.isEmpty then .ok cards
  else filterE (fun c => (matchesSearch c terms).map (fun b => !b)) cards

/-- The duplicate-count key: the template string `` `${card.imageURL}` ``,
which renders an absent field as the text `"undefined"`. -/
def jsKey (c : Card) : String := c.imageURL.getD "undefined"

/-- Source `findDuplicates` (line 133), represented by the membership predicate of
the resulting `Set`: a key is in the set iff its count exceeds one. -/
def findDuplicates (cards : List Card) (k : String) : Bool :=
  1 < (cards.map jsKey).count k

/-- Lines 102-105: `duplicates.has(card.imageURL)`.  When `imageURL` is
absent, `Set.has(undefined)` is `false` (the set holds only strings). -/
def dupStage (flag : Bool) (cards : List Card) : List Card :=
  if flag then
    cards.filter (fun c =>
      match c.imageURL with
      | some s => findDuplicates cards s
      | none => false)
  else cards

/-- Source `RARITY_ORDER` (line 146): object lookup, `none` for an unknown key
(JS `undefined`). -/
def RARITY_ORDER (s : String) : Option Int :=
  if s = "mythic" then some 4
  else if s = "glyph" then some 3
  else if s = "unique" then some 2
  else if s = "standard" then some 1
  else none

/-- Source `CONDITION_ORDER` (line 147). -/
def CONDITION_ORDER (s : String) : Option Int :=
  if s = "pristine" then some 1
  else if s = "mint" then some 2
  else if s = "good" then some 3
  else if s = "worn" then some 4
  else if s = "damaged" then some 5
  else none

/-- JS subtraction where either side may be `undefined`; `none` is `NaN`. -/
def jsSub : Option Int → Option Int → Option Int
  | some a, some b => some (a - b)
  | _, _ => none

/-- JS `x || y` for a numeric `x` that may be `NaN` (`none`): `NaN` and `0`
are falsy, any other number is returned as is. -/
def jsOrI (x : Option Int) (y : Int) : Int :=
  match x with
  | none => y
  | some v => if v = 0 then y else v

/-- The comparator of `sortCards` (lines 149-154): rarity rank descending,
then condition rank ascending, then `localeCompare` on group, then on name,
chained with JS `||` (a `NaN` from an unknown rarity/condition is falsy and
falls through to the next key). -/
def cardCompare (a b : Card) : Int :=
  jsOrI (jsSub (RARITY_ORDER (jsToLower b.rarity)) (RARITY_ORDER (jsToLower a.rarity)))
    (jsOrI (jsSub (CONDITION_ORDER (jsToLower a.condition)) (CONDITION_ORDER (jsToLower b.condition)))
      (jsOrI (some (localeCompare a.group b.group))
        (localeCompare a.name b.name)))

/-- The relation a stable comparator sort establishes between neighbours. -/
def cardLE (a b : Card) : Prop := cardCompare a b ≤ 0

instance : DecidableRel cardLE := fun _ _ => Int.decLe _ _

/-- Source `sortCards` (line 145): a stable sort by `cardCompare` over a copy of the
input (`Array.prototype.sort` is stable; insertion sort realises it). -/
def sortCards (cards : List Card) : List Card := List.insertionSort cardLE cards

/-- Source `processCards` (line 84).  Alias expansion lives in the external
`config/searchAliases` module, so the expansion function is a parameter. -/
def processCards (expandAll : List String → List String)
    (cards : List Card) (options : QueryOptions) : Except Unit (List Card) := do
  let filtered := validStage cards
  let expandedSearchTerms := expandAll options.searchTerms
  let expandedExcludeTerms := expandAll options.excludeTerms
  let filtered ← includeStage expandedSearchTerms filtered
  let filtered ← excludeStage expandedExcludeTerms filtered
  let filtered := dupStage options.showDuplicates filtered
  return sortCards filtered

/-- Constant `PAGE_SIZE` (line 6). -/
def PAGE_SIZE : Nat := 12

/-- The pagination record returned by `calculatePagination`. -/
structure Pagination where
  currentPage : Int
  totalPages : Int
  pageSize : Int
deriving DecidableEq

/-- JS `page || 1`: `0` (and only `0`, for an integer) is falsy. -/
def jsOrOne (p : Int) : Int := if p = 0 then 1 else p

/-- Model of `Math.ceil(n / PAGE_SIZE)` for a natural `n`: exact ceiling division. -/
def ceilPages (n : Nat) : Nat := (n + PAGE_SIZE - 1) / PAGE_SIZE

/-- Source `calculatePagination` (line 157). -/
def calculatePagination (cards : List Card) (page : Int) : Pagination :=
  let totalPages : Int := max 1 (ceilPages cards.length : Int)
  let currentPage : Int := max 1 (min (jsOrOne page) totalPages)
  ⟨currentPage, totalPages, (PAGE_SIZE : Int)⟩

/-- Source `calculateNewPage` (line 299).  The current page is re-read from the
rendered embed author line; the regex result is modelled as `parsedPage`
(`none` when the match fails, defaulting to page 1). -/
def calculateNewPage (customId : String) (totalCards : Nat) (parsedPage : Option Nat) : Int :=
  let totalPages : Int := (ceilPages totalCards : Int)
  let currentPage : Int := (parsedPage.getD 1 : Nat)
  if customId = "first" then 1
  else if customId = "prev" then max 1 (currentPage - 1)
  else if customId = "next" then min totalPages (currentPage + 1)
  else if customId = "last" then totalPages
  else currentPage

/-- Whitespace test for the `trim` model. -/
def isWs (c : Char) : Bool := (c == ' ') || (c == '\n') || (c == '\t') || (c == '\r')

/-- Model of JS `s.trim()`: strip whitespace from both ends. -/
def jsTrim (s : String) : String :=
  ⟨((s.data.dropWhile isWs).reverse.dropWhile isWs).reverse⟩

/-- Model of JS `s.slice(0, n)`: the first `n` characters. -/
def jsTake (s : String) (n : Nat) : String := ⟨s.data.take n⟩

/-- Insert a card into the bucket of its rarity key, appending a fresh bucket
at the end on first encounter (JS object keys keep insertion order). -/
def addToGroup (k : String) (c : Card) : List (String × List Card) → List (String × List Card)
  | [] => [(k, [c])]
  | (k', cs) :: rest =>
    if k' = k then (k', cs ++ [c]) :: rest else (k', cs) :: addToGroup k c rest

/-- Lines 201-206: group the page's cards by lower-cased rarity. -/
def groupByRarity (cards : List Card) : List (String × List Card) :=
  cards.foldl (fun acc c => addToGroup (jsToLower c.rarity) c acc) []

/-- Line 212: the rarity heading of one group.  The emoji table lives in the
external `config/embedConstants`, hence the function parameter; a missing
entry renders as `""` via `|| ''`. -/
def rarityHeading (remoji : String → Option String) (rarity : String) (n : Nat) : String :=
  "### " ++ (remoji rarity).getD "" ++ " " ++ jsToUpper rarity ++ " (" ++ toString n
    ++ " card" ++ (if 1 < n then "s" else "") ++ ")\n"

/-- Line 216: one card line (an absent `cardCode` interpolates as the text
`"undefined"` inside the template string). -/
def cardLine (cemoji : String → Option String) (c : Card) : String :=
  "[" ++ (cemoji (jsToLower c.condition)).getD "" ++ "] **" ++ c.group ++ "** • "
    ++ c.name ++ "—`" ++ c.cardCode.getD "undefined" ++ "`\n"

/-- Lines 209-223: the assembled description text, already trimmed. -/
def assembleDescription (remoji cemoji : String → Option String) (cards : List Card) : String :=
  jsTrim <| (groupByRarity cards).foldl
    (fun acc kv =>
      acc ++ rarityHeading remoji kv.1 kv.2.length
        ++ kv.2.foldl (fun a c => a ++ cardLine cemoji c) ""
        ++ "\n")
    ""

/-- Source `buildCardDescription` (line 197). -/
def buildCardDescription (remoji cemoji : String → Option String) (cards : List Card) : String :=
  if cards.isEmpty then "No cards found for this page."
  else
    let description := assembleDescription remoji cemoji cards
    if 4096 < description.length then jsTake description 4090 ++ "\n..." else description

/-- Constant `COLLECTOR_TIMEOUT` (line 7), in milliseconds. -/
def COLLECTOR_TIMEOUT : Nat := 300000

/-- One handler closure registered on `interactionCreate`: its identity plus
the values it captured (`message.id`, `authorId`, the processed cards). -/
structure Handler where
  hid : Nat
  msgId : Nat
  authorId : Nat
  cards : List Card
deriving DecidableEq

/-- One pending `setTimeout`: its handle, the captured `message.id` and
handler, and the absolute time at which it fires. -/
structure Timer where
  tid : Nat
  msgId : Nat
  h : Handler
  deadline : Nat
deriving DecidableEq

/-- The registry state: the client's `interactionCreate` listener list, the
`activeCollectors` map (message id ↦ handler and timeout handle), and the
pending timers. -/
structure RegState where
  listeners : List Handler
  collectors : List (Nat × Handler × Nat)
  timers : List Timer
deriving DecidableEq

/-- Operation `activeCollectors.get` on the association-list model of the `Map`. -/
def collectorsGet (m : Nat) (l : List (Nat × Handler × Nat)) : Option (Handler × Nat) :=
  (l.find? (fun e => e.1 == m)).map (fun e => e.2)

/-- Operation `activeCollectors.set`: replace the entry in place or append a new one. -/
def collectorsSet (m : Nat) (v : Handler × Nat) :
    List (Nat × Handler × Nat) → List (Nat × Handler × Nat)
  | [] => [(m, v)]
  | e :: rest => if e.1 = m then (m, v) :: rest else e :: collectorsSet m v rest

/-- Operation `activeCollectors.delete`. -/
def collectorsDelete (m : Nat) (l : List (Nat × Handler × Nat)) : List (Nat × Handler × Nat) :=
  l.filter (fun e => e.1 ≠ m)

/-- Source `setupInteractionHandler` (lines 252-297) as a registry transition: if a
collector already exists for the message id, detach its handler and cancel
its timer; then arm a fresh timer `COLLECTOR_TIMEOUT` from now, store the new
entry, and subscribe the new handler. -/
def setupInteractionHandler (now msgId : Nat) (h : Handler) (tid : Nat)
    (s : RegState) : RegState :=
  let s :=
    match collectorsGet msgId s.collectors with
    | some (h1, t1) =>
      { s with
        listeners := s.listeners.erase h1
        timers := s.timers.filter (fun tm => tm.tid ≠ t1) }
    | none => s
  { listeners := s.listeners ++ [h]
    collectors := collectorsSet msgId (h, tid) s.collectors
    timers := s.timers ++ [⟨tid, msgId, h, now + COLLECTOR_TIMEOUT⟩] }

/-- One inbound `interactionCreate` event: the message it refers to, the
member (absent outside a guild), the pressed control, and the page number the
handler re-parses from the rendered embed author text (`none` when the regex
fails). -/
structure Interaction where
  msgId : Nat
  memberId : Option Nat
  customId : String
  parsedPage : Option Nat

/-- The observable outputs of a handler or timer step. -/
inductive Effect where
  | clearControls (msgId : Nat)
  | codeCatalog (h : Handler) (codes : List String)
  | updateMessage (h : Handler) (p : Pagination)
deriving DecidableEq

/-- The handler body (lines 260-287): guard on message id and member id, then
either answer `code_catalog` ephemerally with the current page's codes, or
recompute the pagination and edit the message.  The body performs render I/O
only — it never touches the listener list, the collectors map or any timer. -/
def handleInteraction (h : Handler) (i : Interaction) : List Effect :=
  if i.msgId = h.msgId ∧ i.memberId = some h.authorId then
    if i.customId = "code_catalog" then
      let currentPage := i.parsedPage.getD 1
      let pageCards := (h.cards.drop ((currentPage - 1) * PAGE_SIZE)).take PAGE_SIZE
      [Effect.codeCatalog h (pageCards.map (fun c => c.cardCode.getD "undefined"))]
    else
      [Effect.updateMessage h
        (calculatePagination h.cards (calculateNewPage i.customId h.cards.length i.parsedPage))]
  else []

/-- Event delivery: `client.emit('interactionCreate', i)` runs every
subscribed handler in subscription order.  The registry state is unchanged
because no handler body writes to it. -/
def dispatch (i : Interaction) (s : RegState) : List Effect :=
  s.listeners.foldr (fun h acc => handleInteraction h i ++ acc) []

/-- Handling a sequence of interaction events between registration and
expiry: each event only produces render effects. -/
def runInteractions (evs : List Interaction) (s : RegState) : RegState × List Effect :=
  evs.foldl (fun acc i => (acc.1, acc.2 ++ dispatch i acc.1)) (s, [])

/-- A timer firing (lines 289-293): a cancelled handle is gone and firing it
is a no-op; a pending one removes the collector entry for its captured
message id, detaches its captured handler and issues one best-effort
control-clearing edit. -/
def fire (tid : Nat) (s : RegState) : RegState × List Effect :=
  match s.timers.find? (fun tm => tm.tid == tid) with
  | none => (s, [])
  | some tm =>
    ({ listeners := s.listeners.erase tm.h
       collectors := collectorsDelete tm.msgId s.collectors
       timers := s.timers.filter (fun t => t.tid ≠ tid) },
     [Effect.clearControls tm.msgId])

/-- The handler an effect originates from (`none` for the timer's edit). -/
def effectHandler : Effect → Option Handler
  | .clearControls _ => none
  | .codeCatalog h _ => some h
  | .updateMessage h _ => some h

/-- Spec-side notion for C3/C4: `t` occurs in `s` as a case-insensitive
substring. -/
def CISubstring (t s : String) : Prop :=
  ∃ pre post, pre ++ (jsToLower t).data ++ post = (jsToLower s).data

/-- The five fields the filters match against (an absent code field reads as
`""` here; the filter theorems assume the field is present). -/
def cardFields (c : Card) : List String :=
  [c.name, c.group, c.rarity, c.condition, c.cardCode.getD ""]

/-- Pure (non-throwing) reading of the five-field match, valid for cards
whose `cardCode` is present. -/
def matchB (c : Card) (t : String) : Bool :=
  jsIncludes (jsToLower c.name) t
    || jsIncludes (jsToLower c.group) t
    || jsIncludes (jsToLower c.rarity) t
    || jsIncludes (jsToLower c.condition) t
    || jsIncludes (jsToLower (c.cardCode.getD "")) t

/-- Rarity rank of a card, as looked up by the comparator. -/
def rarityRank (c : Card) : Option Int := RARITY_ORDER (jsToLower c.rarity)

/-- Condition rank of a card, as looked up by the comparator. -/
def condRank (c : Card) : Option Int := CONDITION_ORDER (jsToLower c.condition)

/-- A card whose rarity and condition are in the two closed enum sets. -/
def RankedCard (c : Card) : Prop := (rarityRank c).isSome ∧ (condRank c).isSome

instance : DecidablePred RankedCard := fun _ => instDecidableAnd

/-- Scenario A's first card: mythic/pristine, group "A", name "X". -/
def sampleMythic : Card := ⟨"X", "A", "mythic", "pristine", some "i1", some "X1"⟩

/-- Scenario A's second card: standard/good, group "B", name "Y". -/
def sampleStandard : Card := ⟨"Y", "B", "standard", "good", some "i1", some "Y1"⟩

/-- Options with no filters, page 1, duplicates flag off. -/
def defaultOptions : QueryOptions := ⟨[], [], "owner", 1, false⟩

/-- A card with a non-empty rarity outside the closed rarity set. -/
def fooRarityCard : Card := ⟨"a", "b", "foo", "good", some "i", none⟩

/-- An otherwise valid card whose `cardCode` field is absent. -/
def missingCodeCard : Card := ⟨"a", "b", "mythic", "good", some "i", none⟩

/-- Scenario C's card: matches include term "abc" and exclude term "xyz". -/
def matchBothCard : Card := ⟨"abc xyz", "g", "mythic", "good", some "i", some "C1"⟩

/-- A card whose name alone exceeds the 4096-character description limit. -/
def longCard : Card :=
  ⟨⟨List.replicate 4200 'x'⟩, "g", "mythic", "good", some "i", some "L1"⟩

/-- Strict `localeCompare` order. -/
def lcLt (a b : String) : Prop := localeCompare a b < 0

/-- The specification's sort order: rarity rank descending, then condition
rank ascending, then group ascending, then name ascending, the string keys
compared case-insensitively first (`localeCompare`); two cards are tied only
when all four keys agree. -/
def specLE (a b : Card) : Prop :=
  (∃ ra rb, rarityRank a = some ra ∧ rarityRank b = some rb ∧ rb < ra)
  ∨ (rarityRank a = rarityRank b ∧
      ((∃ ca cb, condRank a = some ca ∧ condRank b = some cb ∧ ca < cb)
        ∨ (condRank a = condRank b ∧
            (lcLt a.group b.group
              ∨ (a.group = b.group ∧ (lcLt a.name b.name ∨ a.name = b.name))))))

/-! ## General lemmas about the embedded JS primitives -/

theorem string_ext {s t : String} (h : s.data = t.data) : s = t := by
  cases s; cases t; exact congrArg String.mk h

theorem startsWithL_iff (n : List Char) : ∀ h : List Char,
    (startsWithL n h = true ↔ ∃ post, n ++ post = h) := by
  induction n with
  | nil => intro h; simp [startsWithL]
  | cons a as ih =>
    intro h
    cases h with
    | nil =>
      simp only [startsWithL]
      constructor
      · intro hx; exact absurd hx (by decide)
      · rintro ⟨post, hp⟩; exact absurd hp (by simp)
    | cons b bs =>
      simp only [startsWithL, Bool.and_eq_true, beq_iff_eq, ih bs]
      constructor
      · rintro ⟨rfl, post, rfl⟩
        exact ⟨post, rfl⟩
      · rintro ⟨post, hp⟩
        rw [List.cons_append] at hp
        injection hp with h1 h2
        exact ⟨h1, post, h2⟩

theorem includesL_iff (n : List Char) : ∀ h : List Char,
    (includesL n h = true ↔ ∃ pre post, pre ++ n ++ post = h) := by
  intro h
  induction h with
  | nil =>
    simp only [includesL, List.isEmpty_iff]
    constructor
    · rintro rfl
      exact ⟨[], [], rfl⟩
    · rintro ⟨pre, post, hp⟩
      rcases List.append_eq_nil.mp hp with ⟨h1, h2⟩
      exact (List.append_eq_nil.mp h1).2
  | cons c rest ih =>
    simp only [includesL, Bool.or_eq_true, startsWithL_iff, ih]
    constructor
    · rintro (⟨post, hp⟩ | ⟨pre, post, hp⟩)
      · exact ⟨[], post, by simpa using hp⟩
      · exact ⟨c :: pre, post, by simp [hp]⟩
    · rintro ⟨pre, post, hp⟩
      cases pre with
      | nil => exact Or.inl ⟨post, by simpa using hp⟩
      | cons p ps =>
        rw [List.cons_append, List.cons_append] at hp
        injection hp with h1 h2
        exact Or.inr ⟨ps, post, h2⟩

theorem jsIncludes_iff (hay needle : String) :
    jsIncludes hay needle = true ↔ ∃ pre post, pre ++ needle.data ++ post = hay.data :=
  includesL_iff needle.data hay.data

/-! ## Pure refinements of the throwing pipeline pieces -/

theorem allE_ok {α : Type} (f : α → Except Unit Bool) (g : α → Bool) :
    ∀ l : List α, (∀ a ∈ l, f a = .ok (g a)) → allE f l = .ok (l.all g) := by
  intro l
  induction l with
  | nil => intro _; rfl
  | cons a as ih =>
    intro h
    have ha := h a (List.mem_cons_self a as)
    have hrest := ih fun x hx => h x (List.mem_cons_of_mem a hx)
    simp only [allE, ha, List.all_cons, bind, Except.bind]
    cases hg : g a <;> simp [hg, hrest]

theorem someE_ok {α : Type} (f : α → Except Unit Bool) (g : α → Bool) :
    ∀ l : List α, (∀ a ∈ l, f a = .ok (g a)) → someE f l = .ok (l.any g) := by
  intro l
  induction l with
  | nil => intro _; rfl
  | cons a as ih =>
    intro h
    have ha := h a (List.mem_cons_self a as)
    have hrest := ih fun x hx => h x (List.mem_cons_of_mem a hx)
    simp only [someE, ha, List.any_cons, bind, Except.bind]
    cases hg : g a <;> simp [hg, hrest]

theorem filterE_ok {α : Type} (f : α → Except Unit Bool) (g : α → Bool) :
    ∀ l : List α, (∀ a ∈ l, f a = .ok (g a)) → filterE f l = .ok (l.filter g) := by
  intro l
  induction l with
  | nil => intro _; rfl
  | cons a as ih =>
    intro h
    have ha := h a (List.mem_cons_self a as)
    have hrest := ih fun x hx => h x (List.mem_cons_of_mem a hx)
    simp only [filterE, ha, List.filter_cons, bind, Except.bind, hrest]
    cases hg : g a <;> simp [hg, pure, Except.pure]

theorem cardMatchesTerm_ok (c : Card) (t : String) (h : c.cardCode.isSome) :
    cardMatchesTerm c t = .ok (matchB c t) := by
  obtain ⟨code, hcode⟩ := Option.isSome_iff_exists.mp h
  unfold cardMatchesTerm matchB
  rw [hcode]
  by_cases h4 : (jsIncludes (jsToLower c.name) t
      || jsIncludes (jsToLower c.group) t
      || jsIncludes (jsToLower c.rarity) t
      || jsIncludes (jsToLower c.condition) t) = true
  · simp [h4]
  · simp only [Bool.not_eq_true] at h4
    simp [h4, hcode]

theorem matchesSearch_ok (c : Card) (terms : List String) (h : c.cardCode.isSome) :
    matchesSearch c terms = .ok (terms.any (matchB c)) :=
  someE_ok _ _ terms fun _ _ => cardMatchesTerm_ok c _ h

theorem includeStage_ok (terms : List String) (cards : List Card)
    (h : ∀ c ∈ cards, c.cardCode.isSome) :
    includeStage terms cards = .ok (cards.filter fun c => terms.all (matchB c)) := by
  unfold includeStage
  by_cases he : terms.isEmpty
  · rw [if_pos he]
    rw [List.isEmpty_iff.mp he]
    simp
  · rw [if_neg he]
    exact filterE_ok _ _ cards fun c hc =>
      allE_ok _ _ terms fun t _ => cardMatchesTerm_ok c t (h c hc)

theorem excludeStage_ok (terms : List String) (cards : List Card)
    (h : ∀ c ∈ cards, c.cardCode.isSome) :
    excludeStage terms cards = .ok (cards.filter fun c => !(terms.any (matchB c))) := by
  unfold excludeStage
  by_cases he : terms.isEmpty
  · rw [if_pos he]
    rw [List.isEmpty_iff.mp he]
    simp
  · rw [if_neg he]
    exact filterE_ok _ _ cards fun c hc => by
      rw [matchesSearch_ok c terms (h c hc)]
      rfl

theorem matchB_iff (c : Card) (t : String) (ht : jsToLower t = t) :
    matchB c t = true ↔ ∃ f ∈ cardFields c, CISubstring t f := by
  have hfield : ∀ s : String, jsIncludes (jsToLower s) t = true ↔ CISubstring t s := by
    intro s
    rw [jsIncludes_iff, CISubstring, ht]
  simp only [matchB, Bool.or_eq_true, hfield, cardFields]
  simp only [List.mem_cons, List.not_mem_nil, or_false, exists_eq_or_imp, exists_eq_left]
  tauto

/-! ## Claim C2: pagination -/

/-- C2: pagination with the fixed page size 12 returns
`totalPages = max 1 ⌈totalItems / 12⌉` (characterised below as the least page
count ≥ 1 covering all items) and `currentPage = clamp(requestedPage, 1,
totalPages)` for every integer requested page (zero and negatives included),
so `totalPages ≥ 1` and `1 ≤ currentPage ≤ totalPages` always hold; with 25
items and requested page 0 the result is page 1 of 3. -/
theorem claim_C2_pagination :
    (∀ (cards : List Card) (p : Int),
      1 ≤ (calculatePagination cards p).totalPages ∧
      1 ≤ (calculatePagination cards p).currentPage ∧
      (calculatePagination cards p).currentPage ≤ (calculatePagination cards p).totalPages ∧
      (calculatePagination cards p).pageSize = 12 ∧
      (calculatePagination cards p).currentPage
        = max 1 (min p (calculatePagination cards p).totalPages) ∧
      (calculatePagination cards p).totalPages = max 1 ((ceilPages cards.length : Nat) : Int) ∧
      (cards.length : Int) ≤ (calculatePagination cards p).totalPages * 12 ∧
      (∀ k : Int, 1 ≤ k → (cards.length : Int) ≤ k * 12 →
        (calculatePagination cards p).totalPages ≤ k)) ∧
    (∀ cards : List Card, cards.length = 25 →
      calculatePagination cards 0 = ⟨1, 3, 12⟩) := by
  constructor
  · intro cards p
    dsimp only [calculatePagination, ceilPages, jsOrOne, PAGE_SIZE]
    rcases eq_or_ne p 0 with hp | hp
    · subst hp
      rw [if_pos rfl]
      exact ⟨by omega, by omega, by omega, rfl, by omega, by omega, by omega,
        fun k hk hle => by omega⟩
    · rw [if_neg hp]
      exact ⟨by omega, by omega, by omega, rfl, by omega, by omega, by omega,
        fun k hk hle => by omega⟩
  · intro cards h
    dsimp only [calculatePagination, ceilPages, jsOrOne, PAGE_SIZE]
    rw [h]
    decide

/-- Witness for C2: 25 concrete items, requested page 0. -/
theorem claim_C2_pagination_witness :
    (List.replicate 25 sampleMythic).length = 25 ∧
    calculatePagination (List.replicate 25 sampleMythic) 0 = ⟨1, 3, 12⟩ :=
  ⟨by decide, claim_C2_pagination.2 _ (by decide)⟩

/-! ## Claim C3: include filtering -/

/-- C3: the include stage keeps an item iff every expanded include term is a
case-insensitive substring of at least one of the item's name, group, rarity,
condition or code fields (AND across terms, OR across fields); an empty
expanded include-term list keeps every item.  The terms produced by argument
parsing and alias expansion are lower-case, and each item that reaches the
matcher with any term present must carry its code field (else the stage
throws, claim C7). -/
theorem claim_C3_include :
    ∀ (terms : List String) (cards : List Card),
      (∀ c ∈ cards, c.cardCode.isSome) →
      (∀ t ∈ terms, jsToLower t = t) →
      ∃ kept, includeStage terms cards = .ok kept ∧
        (∀ c, c ∈ kept ↔ c ∈ cards ∧ ∀ t ∈ terms, ∃ f ∈ cardFields c, CISubstring t f) ∧
        (terms = [] → kept = cards) := by
  intro terms cards hcode hterms
  refine ⟨_, includeStage_ok terms cards hcode, fun c => ?_, fun ht => ?_⟩
  · rw [List.mem_filter]
    refine and_congr_right fun _ => ?_
    rw [List.all_eq_true]
    exact forall₂_congr fun t ht => matchB_iff c t (hterms t ht)
  · subst ht; simp

/-- Witness for C3: one include term `"abc"` against one matching card. -/
theorem claim_C3_include_witness :
    (∀ c ∈ [matchBothCard], c.cardCode.isSome) ∧
    ∃ kept, includeStage ["abc"] [matchBothCard] = .ok kept ∧
      (∀ c, c ∈ kept ↔ c ∈ [matchBothCard] ∧
        ∀ t ∈ ["abc"], ∃ f ∈ cardFields c, CISubstring t f) ∧
      (["abc"] = ([] : List String) → kept = [matchBothCard]) :=
  ⟨by decide, claim_C3_include ["abc"] [matchBothCard] (by decide) (by decide)⟩

/-! ## Claim C4: exclude filtering -/

/-- C4: the exclude stage drops an item iff some expanded exclude term is a
case-insensitive substring of some of the five fields (OR across terms and
fields); an empty exclude list drops nothing; and exclusion is applied after
inclusion, so Scenario C's card — matched by include term "abc" and exclude
term "xyz" — is excluded from the pipeline's result. -/
theorem claim_C4_exclude :
    (∀ (terms : List String) (cards : List Card),
      (∀ c ∈ cards, c.cardCode.isSome) →
      (∀ t ∈ terms, jsToLower t = t) →
      ∃ kept, excludeStage terms cards = .ok kept ∧
        (∀ c, c ∈ kept ↔ c ∈ cards ∧ ¬ ∃ t ∈ terms, ∃ f ∈ cardFields c, CISubstring t f) ∧
        (terms = [] → kept = cards)) ∧
    processCards id [matchBothCard] ⟨["abc"], ["xyz"], "owner", 1, false⟩ = .ok [] := by
  constructor
  · intro terms cards hcode hterms
    refine ⟨_, excludeStage_ok terms cards hcode, fun c => ?_, fun ht => ?_⟩
    · rw [List.mem_filter]
      refine and_congr_right fun _ => ?_
      rw [Bool.not_eq_true']
      rw [← Bool.not_eq_true, List.any_eq_true]
      exact not_congr (exists_congr fun t =>
        and_congr_right fun ht => matchB_iff c t (hterms t ht))
    · subst ht; simp
  · decide

/-- Witness for C4: exclude term `"xyz"` against Scenario C's card. -/
theorem claim_C4_exclude_witness :
    (∀ c ∈ [matchBothCard], c.cardCode.isSome) ∧
    ∃ kept, excludeStage ["xyz"] [matchBothCard] = .ok kept ∧
      (∀ c, c ∈ kept ↔ c ∈ [matchBothCard] ∧
        ¬ ∃ t ∈ ["xyz"], ∃ f ∈ cardFields c, CISubstring t f) ∧
      (["xyz"] = ([] : List String) → kept = [matchBothCard]) :=
  ⟨by decide, claim_C4_exclude.1 ["xyz"] [matchBothCard] (by decide) (by decide)⟩

/-! ## Claim C5: duplicates-only filtering -/

/-- C5: with the duplicates flag set, an item is kept iff its image key
occurs at least twice in the set the filter receives, and in the pipeline
that set is exactly the include/exclude-filtered set (not the full
collection): `processCards` applies the duplicate filter to the output `F`
of the include and exclude stages. -/
theorem claim_C5_duplicates :
    (∀ cards : List Card, (∀ c ∈ cards, c.imageURL.isSome) →
      ∀ c, c ∈ dupStage true cards ↔
        c ∈ cards ∧ 2 ≤ (cards.map jsKey).count (jsKey c)) ∧
    (∀ (expandAll : List String → List String) (cards : List Card) (opts : QueryOptions),
      opts.showDuplicates = true →
      (∀ c ∈ cards, isValidCard c = true → c.cardCode.isSome) →
      ∃ F, (includeStage (expandAll opts.searchTerms) (validStage cards)).bind
            (excludeStage (expandAll opts.excludeTerms)) = .ok F ∧
        processCards expandAll cards opts = .ok (sortCards (dupStage true F))) := by
  constructor
  · intro cards himg c
    have hd : dupStage true cards = cards.filter (fun c =>
        match c.imageURL with
        | some s => findDuplicates cards s
        | none => false) := rfl
    rw [hd, List.mem_filter]
    refine and_congr_right fun hc => ?_
    obtain ⟨s, hs⟩ := Option.isSome_iff_exists.mp (himg c hc)
    simp only [hs, findDuplicates, jsKey, Option.getD_some, decide_eq_true_eq]
    omega
  · intro expandAll cards opts hdup hcode
    have hvalid : ∀ c ∈ validStage cards, c.cardCode.isSome := by
      intro c hc
      rw [validStage, List.mem_filter] at hc
      exact hcode c hc.1 hc.2
    have h1 := includeStage_ok (expandAll opts.searchTerms) (validStage cards) hvalid
    have hsub : ∀ c ∈ (validStage cards).filter
        (fun c => (expandAll opts.searchTerms).all (matchB c)), c.cardCode.isSome := by
      intro c hc
      exact hvalid c (List.mem_filter.mp hc).1
    have h2 := excludeStage_ok (expandAll opts.excludeTerms) _ hsub
    refine ⟨List.filter (fun c => !(expandAll opts.excludeTerms).any (matchB c))
        (List.filter (fun c => (expandAll opts.searchTerms).all (matchB c)) (validStage cards)),
      ?_, ?_⟩
    · rw [h1]
      exact h2
    · simp only [processCards, bind, Except.bind, h1, h2, hdup]
      rfl

/-- Witness for C5: two cards sharing an image key and one unique card. -/
theorem claim_C5_duplicates_witness :
    (∀ c ∈ [sampleMythic, sampleStandard, matchBothCard], c.imageURL.isSome) ∧
    (∀ c, c ∈ dupStage true [sampleMythic, sampleStandard, matchBothCard] ↔
      c ∈ [sampleMythic, sampleStandard, matchBothCard] ∧
      2 ≤ ([sampleMythic, sampleStandard, matchBothCard].map jsKey).count (jsKey c)) :=
  ⟨by decide, claim_C5_duplicates.1 _ (by decide)⟩

/-! ## Order-theoretic lemmas for the sort comparator -/

theorem char_toNat_inj {a b : Char} (h : a.toNat = b.toNat) : a = b := by
  apply Char.eq_of_val_eq
  apply UInt32.eq_of_val_eq
  apply Fin.ext
  simpa [Char.toNat, UInt32.toNat] using h

theorem cmpChars_self : ∀ l : List Char, cmpChars l l = 0 := by
  intro l
  induction l with
  | nil => rfl
  | cons c cs ih => simp [cmpChars, ih]

theorem cmpChars_eq_zero : ∀ {a b : List Char}, cmpChars a b = 0 → a = b := by
  intro a
  induction a with
  | nil =>
    intro b h
    cases b with
    | nil => rfl
    | cons y ys => exact absurd h (by simp [cmpChars])
  | cons x xs ih =>
    intro b h
    cases b with
    | nil => exact absurd h (by simp [cmpChars])
    | cons y ys =>
      rw [cmpChars] at h
      rcases lt_trichotomy x.toNat y.toNat with h1 | h1 | h1
      · rw [if_pos h1] at h
        exact absurd h (by decide)
      · rw [if_neg (by omega), if_neg (by omega)] at h
        rw [char_toNat_inj h1, ih h]
      · rw [if_neg (by omega), if_pos h1] at h
        exact absurd h (by decide)

theorem cmpChars_swap : ∀ a b : List Char, cmpChars b a = -cmpChars a b := by
  intro a
  induction a with
  | nil =>
    intro b
    cases b <;> simp [cmpChars]
  | cons x xs ih =>
    intro b
    cases b with
    | nil => simp [cmpChars]
    | cons y ys =>
      simp only [cmpChars]
      split_ifs <;> first | omega | exact ih ys

theorem cmpChars_lt_trans :
    ∀ a b c : List Char, cmpChars a b < 0 → cmpChars b c < 0 → cmpChars a c < 0 := by
  intro a
  induction a with
  | nil =>
    intro b c hab hbc
    cases c with
    | nil =>
      cases b with
      | nil => exact absurd hbc (by simp [cmpChars])
      | cons y ys => exact absurd hbc (by simp [cmpChars])
    | cons z zs => simp [cmpChars]
  | cons x xs ih =>
    intro b c hab hbc
    cases b with
    | nil => exact absurd hab (by simp [cmpChars])
    | cons y ys =>
      cases c with
      | nil => exact absurd hbc (by simp [cmpChars])
      | cons z zs =>
        rw [cmpChars] at hab hbc ⊢
        split_ifs at hab hbc ⊢ <;> first | omega | exact ih ys zs hab hbc

theorem localeCompare_self (s : String) : localeCompare s s = 0 := by
  simp [localeCompare, cmpChars_self]

theorem localeCompare_eq_zero {a b : String} (h : localeCompare a b = 0) : a = b := by
  simp only [localeCompare] at h
  split_ifs at h with hp
  · exact string_ext (cmpChars_eq_zero h)
  · exact absurd h hp

theorem localeCompare_swap (a b : String) : localeCompare b a = -localeCompare a b := by
  simp only [localeCompare]
  rw [cmpChars_swap (jsToLower a).data (jsToLower b).data, cmpChars_swap a.data b.data]
  split_ifs <;> omega

theorem localeCompare_lt_trans {a b c : String} :
    localeCompare a b < 0 → localeCompare b c < 0 → localeCompare a c < 0 := by
  simp only [localeCompare]
  intro hab hbc
  by_cases p1 : cmpChars (jsToLower a).data (jsToLower b).data = 0
  · rw [if_pos p1] at hab
    by_cases p2 : cmpChars (jsToLower b).data (jsToLower c).data = 0
    · rw [if_pos p2] at hbc
      have p3 : cmpChars (jsToLower a).data (jsToLower c).data = 0 := by
        rw [cmpChars_eq_zero p1, cmpChars_eq_zero p2, cmpChars_self]
      rw [if_pos p3]
      exact cmpChars_lt_trans _ _ _ hab hbc
    · rw [if_neg p2] at hbc
      have he : cmpChars (jsToLower a).data (jsToLower c).data
          = cmpChars (jsToLower b).data (jsToLower c).data := by
        rw [cmpChars_eq_zero p1]
      rw [he, if_neg (by omega)]
      exact hbc
  · rw [if_neg p1] at hab
    by_cases p2 : cmpChars (jsToLower b).data (jsToLower c).data = 0
    · have he : cmpChars (jsToLower a).data (jsToLower c).data
          = cmpChars (jsToLower a).data (jsToLower b).data := by
        rw [cmpChars_eq_zero p2]
      rw [he, if_neg (by omega)]
      exact hab
    · rw [if_neg p2] at hbc
      have h3 := cmpChars_lt_trans _ _ _ hab hbc
      rw [if_neg (by omega)]
      exact h3

theorem specLE_iff_ranked {a b : Card} {ra rb ca cb : Int}
    (hra : rarityRank a = some ra) (hrb : rarityRank b = some rb)
    (hca : condRank a = some ca) (hcb : condRank b = some cb) :
    specLE a b ↔
      (rb < ra ∨ (ra = rb ∧ (ca < cb ∨ (ca = cb ∧
        (lcLt a.group b.group ∨ (a.group = b.group ∧
          (lcLt a.name b.name ∨ a.name = b.name))))))) := by
  simp [specLE, hra, hrb, hca, hcb]

theorem cardCompare_le_iff {a b : Card} (ha : RankedCard a) (hb : RankedCard b) :
    cardLE a b ↔ specLE a b := by
  obtain ⟨har, hac⟩ := ha
  obtain ⟨hbr, hbc⟩ := hb
  obtain ⟨ra, hra⟩ := Option.isSome_iff_exists.mp har
  obtain ⟨ca, hca⟩ := Option.isSome_iff_exists.mp hac
  obtain ⟨rb, hrb⟩ := Option.isSome_iff_exists.mp hbr
  obtain ⟨cb, hcb⟩ := Option.isSome_iff_exists.mp hbc
  rw [specLE_iff_ranked hra hrb hca hcb]
  rw [cardLE, cardCompare]
  rw [show RARITY_ORDER (jsToLower a.rarity) = some ra from hra,
    show RARITY_ORDER (jsToLower b.rarity) = some rb from hrb,
    show CONDITION_ORDER (jsToLower a.condition) = some ca from hca,
    show CONDITION_ORDER (jsToLower b.condition) = some cb from hcb]
  simp only [jsSub, jsOrI, lcLt]
  by_cases h1 : rb - ra = 0
  · rw [if_pos h1]
    by_cases h2 : ca - cb = 0
    · rw [if_pos h2]
      by_cases h3 : localeCompare a.group b.group = 0
      · rw [if_pos h3]
        have hg : a.group = b.group := localeCompare_eq_zero h3
        constructor
        · intro hn
          refine Or.inr ⟨by omega, Or.inr ⟨by omega, Or.inr ⟨hg, ?_⟩⟩⟩
          rcases lt_or_eq_of_le hn with h | h
          · exact Or.inl h
          · exact Or.inr (localeCompare_eq_zero h)
        · rintro (h | ⟨-, h | ⟨-, h | ⟨-, h | h⟩⟩⟩)
          · omega
          · omega
          · have h' : localeCompare a.group b.group < 0 := h
            omega
          · exact le_of_lt h
          · rw [h, localeCompare_self]
      · rw [if_neg h3]
        constructor
        · intro hgle
          exact Or.inr ⟨by omega, Or.inr ⟨by omega, Or.inl (by omega)⟩⟩
        · rintro (h | ⟨-, h | ⟨-, h | ⟨hg, -⟩⟩⟩)
          · omega
          · omega
          · exact le_of_lt h
          · exact absurd (hg ▸ localeCompare_self a.group) h3
    · rw [if_neg h2]
      constructor
      · intro hcle
        exact Or.inr ⟨by omega, Or.inl (by omega)⟩
      · rintro (h | ⟨-, h | ⟨hc, -⟩⟩)
        · omega
        · omega
        · omega
  · rw [if_neg h1]
    constructor
    · intro hrle
      exact Or.inl (by omega)
    · rintro (h | ⟨hr, -⟩)
      · omega
      · omega

theorem cardCompare_swap {a b : Card} (ha : RankedCard a) (hb : RankedCard b) :
    cardCompare b a = -cardCompare a b := by
  obtain ⟨har, hac⟩ := ha
  obtain ⟨hbr, hbc⟩ := hb
  obtain ⟨ra, hra⟩ := Option.isSome_iff_exists.mp har
  obtain ⟨ca, hca⟩ := Option.isSome_iff_exists.mp hac
  obtain ⟨rb, hrb⟩ := Option.isSome_iff_exists.mp hbr
  obtain ⟨cb, hcb⟩ := Option.isSome_iff_exists.mp hbc
  rw [cardCompare, cardCompare]
  rw [show RARITY_ORDER (jsToLower a.rarity) = some ra from hra,
    show RARITY_ORDER (jsToLower b.rarity) = some rb from hrb,
    show CONDITION_ORDER (jsToLower a.condition) = some ca from hca,
    show CONDITION_ORDER (jsToLower b.condition) = some cb from hcb]
  simp only [jsSub, jsOrI]
  rw [localeCompare_swap a.group b.group, localeCompare_swap a.name b.name]
  split_ifs <;> omega

theorem cardLE_total {a b : Card} (ha : RankedCard a) (hb : RankedCard b) :
    cardLE a b ∨ cardLE b a := by
  rw [cardLE, cardLE, cardCompare_swap ha hb]
  omega

theorem flatLE_trans {r1 r2 r3 c1 c2 c3 : Int} {g1 g2 g3 n1 n2 n3 : String} :
    (r2 < r1 ∨ (r1 = r2 ∧ (c1 < c2 ∨ (c1 = c2 ∧
      (lcLt g1 g2 ∨ (g1 = g2 ∧ (lcLt n1 n2 ∨ n1 = n2))))))) →
    (r3 < r2 ∨ (r2 = r3 ∧ (c2 < c3 ∨ (c2 = c3 ∧
      (lcLt g2 g3 ∨ (g2 = g3 ∧ (lcLt n2 n3 ∨ n2 = n3))))))) →
    (r3 < r1 ∨ (r1 = r3 ∧ (c1 < c3 ∨ (c1 = c3 ∧
      (lcLt g1 g3 ∨ (g1 = g3 ∧ (lcLt n1 n3 ∨ n1 = n3))))))) := by
  rintro (h12 | ⟨hr12, h12⟩) h23
  · rcases h23 with h23 | ⟨hr23, -⟩ <;> exact Or.inl (by omega)
  · rcases h23 with h23 | ⟨hr23, h23⟩
    · exact Or.inl (by omega)
    · refine Or.inr ⟨by omega, ?_⟩
      rcases h12 with h12 | ⟨hc12, h12⟩
      · rcases h23 with h23 | ⟨hc23, -⟩ <;> exact Or.inl (by omega)
      · rcases h23 with h23 | ⟨hc23, h23⟩
        · exact Or.inl (by omega)
        · refine Or.inr ⟨by omega, ?_⟩
          rcases h12 with h12 | ⟨hg12, h12⟩
          · rcases h23 with h23 | ⟨hg23, -⟩
            · exact Or.inl (localeCompare_lt_trans h12 h23)
            · exact Or.inl (hg23 ▸ h12)
          · rcases h23 with h23 | ⟨hg23, h23⟩
            · exact Or.inl (hg12 ▸ h23)
            · refine Or.inr ⟨hg12.trans hg23, ?_⟩
              rcases h12 with h12 | hn12
              · rcases h23 with h23 | hn23
                · exact Or.inl (localeCompare_lt_trans h12 h23)
                · exact Or.inl (hn23 ▸ h12)
              · rcases h23 with h23 | hn23
                · exact Or.inl (hn12 ▸ h23)
                · exact Or.inr (hn12.trans hn23)

theorem specLE_trans {a b c : Card} (ha : RankedCard a) (hb : RankedCard b)
    (hc : RankedCard c) (hab : specLE a b) (hbc : specLE b c) : specLE a c := by
  obtain ⟨ra, hra⟩ := Option.isSome_iff_exists.mp ha.1
  obtain ⟨ca, hca⟩ := Option.isSome_iff_exists.mp ha.2
  obtain ⟨rb, hrb⟩ := Option.isSome_iff_exists.mp hb.1
  obtain ⟨cb, hcb⟩ := Option.isSome_iff_exists.mp hb.2
  obtain ⟨rc, hrc⟩ := Option.isSome_iff_exists.mp hc.1
  obtain ⟨cc, hcc⟩ := Option.isSome_iff_exists.mp hc.2
  rw [specLE_iff_ranked hra hrb hca hcb] at hab
  rw [specLE_iff_ranked hrb hrc hcb hcc] at hbc
  rw [specLE_iff_ranked hra hrc hca hcc]
  exact flatLE_trans hab hbc

theorem cardLE_trans {a b c : Card} (ha : RankedCard a) (hb : RankedCard b)
    (hc : RankedCard c) (hab : cardLE a b) (hbc : cardLE b c) : cardLE a c :=
  (cardCompare_le_iff ha hc).mpr
    (specLE_trans ha hb hc ((cardCompare_le_iff ha hb).mp hab)
      ((cardCompare_le_iff hb hc).mp hbc))

/-- Insertion keeps a list sorted, assuming totality and transitivity of the
relation only on elements satisfying `P` (the comparator is only coherent on
cards with recognised rarity and condition). -/
theorem sorted_orderedInsertOn {α : Type} (r : α → α → Prop) [DecidableRel r] (P : α → Prop)
    (total : ∀ x y, P x → P y → r x y ∨ r y x)
    (trans : ∀ x y z, P x → P y → P z → r x y → r y z → r x z) :
    ∀ (l : List α) (a : α), P a → (∀ x ∈ l, P x) → l.Sorted r →
      (l.orderedInsert r a).Sorted r := by
  intro l
  induction l with
  | nil =>
    intro a _ _ _
    simp
  | cons b bs ih =>
    intro a ha hP hs
    rw [List.orderedInsert]
    rcases List.sorted_cons.mp hs with ⟨hb, hbs⟩
    split
    case isTrue hab =>
      rw [List.sorted_cons]
      refine ⟨?_, hs⟩
      intro y hy
      rcases List.mem_cons.mp hy with rfl | hy'
      · exact hab
      · exact trans a b y ha (hP b (List.mem_cons_self b bs))
          (hP y (List.mem_cons_of_mem b hy')) hab (hb y hy')
    case isFalse hab =>
      have hba : r b a :=
        (total a b ha (hP b (List.mem_cons_self b bs))).resolve_left hab
      rw [List.sorted_cons]
      constructor
      · intro y hy
        rcases (List.mem_orderedInsert r).mp hy with rfl | hy'
        · exact hba
        · exact hb y hy'
      · exact ih a ha (fun x hx => hP x (List.mem_cons_of_mem b hx)) hbs

/-- Insertion sort yields a sorted list under `P`-relative totality and
transitivity of the relation. -/
theorem sorted_insertionSortOn {α : Type} (r : α → α → Prop) [DecidableRel r] (P : α → Prop)
    (total : ∀ x y, P x → P y → r x y ∨ r y x)
    (trans : ∀ x y z, P x → P y → P z → r x y → r y z → r x z) :
    ∀ l : List α, (∀ x ∈ l, P x) → (l.insertionSort r).Sorted r := by
  intro l
  induction l with
  | nil =>
    intro _
    simp
  | cons a as ih =>
    intro hP
    rw [List.insertionSort]
    apply sorted_orderedInsertOn r P total trans
    · exact hP a (List.mem_cons_self a as)
    · intro x hx
      exact hP x (List.mem_cons_of_mem a ((List.mem_insertionSort r).mp hx))
    · exact ih fun x hx => hP x (List.mem_cons_of_mem a hx)

/-! ## Claim C6: sort order -/

/-- C6: for cards whose rarity and condition lie in the closed enum sets,
`sortCards` returns a permutation of its input sorted by rarity rank
descending, then condition rank ascending, then group, then name (string
keys under the `localeCompare` collation, whose primary comparison is
case-insensitive, with ties only on full key equality); in particular the
mythic/pristine card of Scenario A sorts before the standard/good one. -/
theorem claim_C6_sort :
    (∀ l : List Card, (∀ c ∈ l, RankedCard c) →
      (sortCards l).Sorted specLE ∧ (sortCards l).Perm l) ∧
    sortCards [sampleStandard, sampleMythic] = [sampleMythic, sampleStandard] ∧
    sortCards [sampleMythic, sampleStandard] = [sampleMythic, sampleStandard] := by
  refine ⟨?_, by decide, by decide⟩
  intro l hP
  constructor
  · have hs : (sortCards l).Sorted cardLE :=
      sorted_insertionSortOn cardLE RankedCard
        (fun x y hx hy => cardLE_total hx hy)
        (fun x y z hx hy hz => cardLE_trans hx hy hz) l hP
    refine List.Pairwise.imp_of_mem ?_ hs
    intro a b haMem hbMem hab
    have ha : RankedCard a := hP a ((List.mem_insertionSort cardLE).mp haMem)
    have hb : RankedCard b := hP b ((List.mem_insertionSort cardLE).mp hbMem)
    exact (cardCompare_le_iff ha hb).mp hab
  · exact List.perm_insertionSort cardLE l

/-- Witness for C6 at Scenario A's two cards. -/
theorem claim_C6_sort_witness :
    (∀ c ∈ [sampleStandard, sampleMythic], RankedCard c) ∧
    ((sortCards [sampleStandard, sampleMythic]).Sorted specLE ∧
      (sortCards [sampleStandard, sampleMythic]).Perm [sampleStandard, sampleMythic]) :=
  ⟨by decide, claim_C6_sort.1 _ (by decide)⟩

/-! ## Claim C7: the pipeline can throw on a missing code field -/

/-- C7 as stated fails on the code: a record that is valid for `isValidCard`
but lacks the `cardCode` field makes the include stage evaluate
`card.cardCode.toLowerCase()` once no other field matches the term, which
throws instead of degrading to a reduced result set. -/
theorem claim_C7_counterexample :
    isValidCard missingCodeCard = true ∧
    processCards id [missingCodeCard] ⟨["zz"], [], "owner", 1, false⟩ = .error () := by
  decide

/-- C7 amended: the pipeline never throws provided every record passing
validation carries its code field, and never throws at all when both
expanded term lists are empty. -/
theorem claim_C7_no_throw :
    (∀ (expandAll : List String → List String) (cards : List Card) (opts : QueryOptions),
      (∀ c ∈ cards, isValidCard c = true → c.cardCode.isSome) →
      ∃ l, processCards expandAll cards opts = .ok l) ∧
    (∀ (expandAll : List String → List String) (cards : List Card) (opts : QueryOptions),
      expandAll opts.searchTerms = [] → expandAll opts.excludeTerms = [] →
      ∃ l, processCards expandAll cards opts = .ok l) := by
  constructor
  · intro expandAll cards opts hcode
    have hvalid : ∀ c ∈ validStage cards, c.cardCode.isSome := by
      intro c hc
      rw [validStage, List.mem_filter] at hc
      exact hcode c hc.1 hc.2
    have h1 := includeStage_ok (expandAll opts.searchTerms) (validStage cards) hvalid
    have hsub : ∀ c ∈ (validStage cards).filter
        (fun c => (expandAll opts.searchTerms).all (matchB c)), c.cardCode.isSome := by
      intro c hc
      exact hvalid c (List.mem_filter.mp hc).1
    have h2 := excludeStage_ok (expandAll opts.excludeTerms) _ hsub
    refine ⟨sortCards (dupStage opts.showDuplicates
      (List.filter (fun c => !(expandAll opts.excludeTerms).any (matchB c))
        (List.filter (fun c => (expandAll opts.searchTerms).all (matchB c))
          (validStage cards)))), ?_⟩
    simp only [processCards, bind, Except.bind, h1, h2]
    rfl
  · intro expandAll cards opts h1 h2
    refine ⟨sortCards (dupStage opts.showDuplicates (validStage cards)), ?_⟩
    simp only [processCards, bind, Except.bind, h1, h2, includeStage, excludeStage,
      List.isEmpty_nil, if_true]
    rfl

/-- Witness for C7's amended theorem on a concrete valid collection. -/
theorem claim_C7_no_throw_witness :
    (∀ c ∈ [sampleMythic], isValidCard c = true → c.cardCode.isSome) ∧
    ∃ l, processCards id [sampleMythic] defaultOptions = .ok l :=
  ⟨by decide, claim_C7_no_throw.1 id [sampleMythic] defaultOptions (by decide)⟩

/-! ## Claim C8: validation does not reject unknown rarities -/

/-- C8 as stated fails on the code: a card with the non-empty unrecognised
rarity `"foo"` passes `isValidCard` and flows through the whole pipeline
into the sorted output, i.e. it does reach the sort step. -/
theorem claim_C8_counterexample :
    RARITY_ORDER (jsToLower fooRarityCard.rarity) = none ∧
    isValidCard fooRarityCard = true ∧
    processCards id [fooRarityCard] defaultOptions = .ok [fooRarityCard] := by
  decide

/-- C8 amended: validation checks only that the four core fields are
non-empty — rarity-set membership is not checked — so an unrecognised
non-empty rarity reaches the sort comparator, where its `NaN` rarity
difference is falsy and falls through to the condition key; sorting never
crashes and always returns a permutation of its input. -/
theorem claim_C8_amended :
    (∀ c : Card, isValidCard c = true ↔
      (c.name ≠ "" ∧ c.group ≠ "" ∧ c.rarity ≠ "" ∧ c.condition ≠ "")) ∧
    (∀ a b : Card, rarityRank a = none →
      cardCompare a b = jsOrI (jsSub (condRank a) (condRank b))
        (jsOrI (some (localeCompare a.group b.group)) (localeCompare a.name b.name))) ∧
    (∀ l : List Card, (sortCards l).Perm l) := by
  refine ⟨?_, ?_, fun l => List.perm_insertionSort cardLE l⟩
  · intro c
    simp only [isValidCard, Bool.and_eq_true, bne_iff_ne]
    tauto
  · intro a b hra
    rw [cardCompare]
    rw [show RARITY_ORDER (jsToLower a.rarity) = none from hra]
    cases RARITY_ORDER (jsToLower b.rarity) <;> rfl

/-- Witness for C8's amended theorem at the `"foo"`-rarity card. -/
theorem claim_C8_amended_witness :
    rarityRank fooRarityCard = none ∧
    cardCompare fooRarityCard sampleMythic
      = jsOrI (jsSub (condRank fooRarityCard) (condRank sampleMythic))
        (jsOrI (some (localeCompare fooRarityCard.group sampleMythic.group))
          (localeCompare fooRarityCard.name sampleMythic.name)) :=
  ⟨by decide, claim_C8_amended.2.1 fooRarityCard sampleMythic (by decide)⟩

/-! ## Session registry lemmas -/

theorem mem_dispatch {i : Interaction} {s : RegState} {e : Effect} :
    e ∈ dispatch i s ↔ ∃ h ∈ s.listeners, e ∈ handleInteraction h i := by
  rw [dispatch]
  induction s.listeners with
  | nil => simp
  | cons h hs ih => simp [List.foldr_cons, ih]

theorem effectHandler_handleInteraction {h : Handler} {i : Interaction} {e : Effect}
    (he : e ∈ handleInteraction h i) : effectHandler e = some h := by
  rw [handleInteraction] at he
  split_ifs at he
  · rcases List.mem_singleton.mp he with rfl
    rfl
  · rcases List.mem_singleton.mp he with rfl
    rfl
  · exact absurd he (List.not_mem_nil e)

theorem handleInteraction_other {h : Handler} {i : Interaction}
    (hne : i.msgId ≠ h.msgId) : handleInteraction h i = [] := by
  rw [handleInteraction, if_neg]
  rintro ⟨he, -⟩
  exact hne he

theorem runInteractions_state (evs : List Interaction) (s : RegState) :
    (runInteractions evs s).1 = s := by
  rw [runInteractions]
  have : ∀ acc : RegState × List Effect,
      (evs.foldl (fun acc i => (acc.1, acc.2 ++ dispatch i acc.1)) acc).1 = acc.1 := by
    induction evs with
    | nil => intro acc; rfl
    | cons e es ih => intro acc; exact ih _
  exact this (s, [])

/-! ## Claim C1: at most one live handler per message identity -/

/-- C1: registering a new session for a message id that already has an
active handler `h1` with timer `t1` removes `h1`'s event subscription and
cancels `t1` before installing the new handler: afterwards `h1` is not
subscribed (so no dispatched event ever reaches it), no pending timer
carries `t1`, firing `t1` is a state-preserving no-op with no effects (in
particular it neither expires nor detaches the new handler), and no effect
of any dispatched event originates from `h1`. -/
theorem claim_C1_single_handler :
    ∀ (s : RegState) (m now tid2 : Nat) (h1 h2 : Handler) (t1 : Nat),
      collectorsGet m s.collectors = some (h1, t1) →
      s.listeners.count h1 = 1 →
      tid2 ≠ t1 →
      h2 ≠ h1 →
      (h1 ∉ (setupInteractionHandler now m h2 tid2 s).listeners ∧
        (∀ tm ∈ (setupInteractionHandler now m h2 tid2 s).timers, tm.tid ≠ t1) ∧
        fire t1 (setupInteractionHandler now m h2 tid2 s)
          = (setupInteractionHandler now m h2 tid2 s, []) ∧
        (∀ i : Interaction, ∀ e ∈ dispatch i (setupInteractionHandler now m h2 tid2 s),
          effectHandler e ≠ some h1)) := by
  intro s m now tid2 h1 h2 t1 hcol hcount htid hne
  have hstate : setupInteractionHandler now m h2 tid2 s =
      { listeners := s.listeners.erase h1 ++ [h2]
        collectors := collectorsSet m (h2, tid2) s.collectors
        timers := s.timers.filter (fun tm => tm.tid ≠ t1) ++ [⟨tid2, m, h2, now + COLLECTOR_TIMEOUT⟩] } := by
    rw [setupInteractionHandler, hcol]
  have hnotmem : h1 ∉ (setupInteractionHandler now m h2 tid2 s).listeners := by
    rw [hstate]
    intro hmem
    rcases List.mem_append.mp hmem with hmem | hmem
    · have : (s.listeners.erase h1).count h1 = 0 := by
        rw [List.count_erase_self, hcount]
      exact absurd (List.count_pos_iff.mpr hmem) (by omega)
    · exact hne (List.mem_singleton.mp hmem).symm
  have htimers : ∀ tm ∈ (setupInteractionHandler now m h2 tid2 s).timers, tm.tid ≠ t1 := by
    rw [hstate]
    intro tm hmem
    rcases List.mem_append.mp hmem with hmem | hmem
    · exact of_decide_eq_true (List.mem_filter.mp hmem).2
    · rw [List.mem_singleton.mp hmem]
      exact htid
  refine ⟨hnotmem, htimers, ?_, ?_⟩
  · rw [fire, List.find?_eq_none.mpr ?_]
    intro tm hmem
    simp only [beq_iff_eq]
    exact htimers tm hmem
  · intro i e hmem heq
    rcases mem_dispatch.mp hmem with ⟨h, hh, he⟩
    rw [effectHandler_handleInteraction he] at heq
    rw [Option.some.injEq] at heq
    rw [heq] at hh
    exact hnotmem hh

/-- Witness for C1 at a concrete one-session registry. -/
theorem claim_C1_single_handler_witness :
    (collectorsGet 5 [(5, (⟨1, 5, 9, []⟩ : Handler), 1)] = some (⟨1, 5, 9, []⟩, 1) ∧
      ([(⟨1, 5, 9, []⟩ : Handler)] : List Handler).count ⟨1, 5, 9, []⟩ = 1) ∧
    (⟨1, 5, 9, []⟩ : Handler) ∉
      (setupInteractionHandler 10 5 ⟨2, 5, 9, []⟩ 2
        ⟨[⟨1, 5, 9, []⟩], [(5, ⟨1, 5, 9, []⟩, 1)], [⟨1, 5, ⟨1, 5, 9, []⟩, 300000⟩]⟩).listeners ∧
    (∀ tm ∈ (setupInteractionHandler 10 5 ⟨2, 5, 9, []⟩ 2
        ⟨[⟨1, 5, 9, []⟩], [(5, ⟨1, 5, 9, []⟩, 1)], [⟨1, 5, ⟨1, 5, 9, []⟩, 300000⟩]⟩).timers,
      tm.tid ≠ 1) ∧
    fire 1 (setupInteractionHandler 10 5 ⟨2, 5, 9, []⟩ 2
        ⟨[⟨1, 5, 9, []⟩], [(5, ⟨1, 5, 9, []⟩, 1)], [⟨1, 5, ⟨1, 5, 9, []⟩, 300000⟩]⟩)
      = (setupInteractionHandler 10 5 ⟨2, 5, 9, []⟩ 2
        ⟨[⟨1, 5, 9, []⟩], [(5, ⟨1, 5, 9, []⟩, 1)], [⟨1, 5, ⟨1, 5, 9, []⟩, 300000⟩]⟩, []) ∧
    (∀ i : Interaction, ∀ e ∈ dispatch i (setupInteractionHandler 10 5 ⟨2, 5, 9, []⟩ 2
        ⟨[⟨1, 5, 9, []⟩], [(5, ⟨1, 5, 9, []⟩, 1)], [⟨1, 5, ⟨1, 5, 9, []⟩, 300000⟩]⟩),
      effectHandler e ≠ some ⟨1, 5, 9, []⟩) :=
  ⟨⟨by decide, by decide⟩,
    claim_C1_single_handler ⟨[⟨1, 5, 9, []⟩], [(5, ⟨1, 5, 9, []⟩, 1)], [⟨1, 5, ⟨1, 5, 9, []⟩, 300000⟩]⟩
      5 10 2 ⟨1, 5, 9, []⟩ ⟨2, 5, 9, []⟩ 1 (by decide) (by decide) (by decide) (by decide)⟩

theorem dispatch_eq_nil {i : Interaction} {s : RegState}
    (h : ∀ h' ∈ s.listeners, handleInteraction h' i = []) : dispatch i s = [] := by
  rw [dispatch]
  have haux : ∀ l : List Handler, (∀ h' ∈ l, handleInteraction h' i = []) →
      l.foldr (fun h acc => handleInteraction h i ++ acc) [] = [] := by
    intro l
    induction l with
    | nil => intro _; rfl
    | cons x xs ih =>
      intro hl
      rw [List.foldr_cons, hl x (List.mem_cons_self x xs), List.nil_append]
      exact ih fun y hy => hl y (List.mem_cons_of_mem x hy)
  exact haux s.listeners h

/-! ## Claim C9: fixed, non-renewing session TTL -/

/-- C9: a session's TTL is fixed at registration: registering at time `now`
arms one timer whose deadline is exactly `now + COLLECTOR_TIMEOUT`; handling
any number of follow-up interaction events changes no registry state (the
handler body performs render I/O only), so the deadline never moves; when
the timer fires it detaches the handler and emits exactly one best-effort
control-clearing render, and afterwards every interaction event for that
message identity dispatches to no handler at all. -/
theorem claim_C9_fixed_ttl :
    ∀ (s : RegState) (m now tid : Nat) (h : Handler) (evs : List Interaction),
      collectorsGet m s.collectors = none →
      (∀ h' ∈ s.listeners, h'.msgId ≠ m) →
      (∀ tm ∈ s.timers, tm.tid ≠ tid) →
      h.msgId = m →
      ((runInteractions evs (setupInteractionHandler now m h tid s)).1
          = setupInteractionHandler now m h tid s ∧
        (setupInteractionHandler now m h tid s).timers.find? (fun tm => tm.tid == tid)
          = some ⟨tid, m, h, now + COLLECTOR_TIMEOUT⟩ ∧
        (fire tid (setupInteractionHandler now m h tid s)).2 = [Effect.clearControls m] ∧
        (∀ h' ∈ (fire tid (setupInteractionHandler now m h tid s)).1.listeners,
          h'.msgId ≠ m) ∧
        (∀ i : Interaction, i.msgId = m →
          dispatch i (fire tid (setupInteractionHandler now m h tid s)).1 = [])) := by
  intro s m now tid h evs hcol hlis htim hmsg
  have hstate : setupInteractionHandler now m h tid s =
      { listeners := s.listeners ++ [h]
        collectors := collectorsSet m (h, tid) s.collectors
        timers := s.timers ++ [⟨tid, m, h, now + COLLECTOR_TIMEOUT⟩] } := by
    rw [setupInteractionHandler, hcol]
  have hnotmem : h ∉ s.listeners := fun hm => (hlis h hm) hmsg
  have hfind : (setupInteractionHandler now m h tid s).timers.find? (fun tm => tm.tid == tid)
      = some ⟨tid, m, h, now + COLLECTOR_TIMEOUT⟩ := by
    rw [hstate]
    rw [List.find?_append, List.find?_eq_none.mpr ?none]
    case none =>
      intro tm hm
      simp only [beq_iff_eq]
      exact htim tm hm
    simp [List.find?]
  have herase : (s.listeners ++ [h]).erase h = s.listeners := by
    rw [List.erase_append_right _ hnotmem, List.erase_cons_head, List.append_nil]
  have hfire : fire tid (setupInteractionHandler now m h tid s) =
      ({ listeners := s.listeners
         collectors := collectorsDelete m
           (setupInteractionHandler now m h tid s).collectors
         timers := (setupInteractionHandler now m h tid s).timers.filter
           (fun t => t.tid ≠ tid) },
       [Effect.clearControls m]) := by
    rw [fire, hfind]
    rw [show (setupInteractionHandler now m h tid s).listeners
        = s.listeners ++ [h] by rw [hstate]]
    dsimp only
    rw [herase]
  refine ⟨runInteractions_state evs _, hfind, ?_, ?_, ?_⟩
  · rw [hfire]
  · rw [hfire]
    exact hlis
  · intro i hi
    rw [hfire]
    apply dispatch_eq_nil
    intro h' hh'
    exact handleInteraction_other (by rw [hi]; exact (hlis h' hh').symm)

/-- Witness for C9: registering into an empty registry and firing. -/
theorem claim_C9_fixed_ttl_witness :
    (collectorsGet 5 (RegState.mk [] [] []).collectors = none ∧
      (∀ h' ∈ (RegState.mk [] [] []).listeners, h'.msgId ≠ 5) ∧
      (∀ tm ∈ (RegState.mk [] [] []).timers, tm.tid ≠ 1) ∧
      (Handler.mk 1 5 9 []).msgId = 5) ∧
    ((runInteractions [⟨5, some 9, "next", some 1⟩]
        (setupInteractionHandler 0 5 ⟨1, 5, 9, []⟩ 1 ⟨[], [], []⟩)).1
        = setupInteractionHandler 0 5 ⟨1, 5, 9, []⟩ 1 ⟨[], [], []⟩ ∧
      (setupInteractionHandler 0 5 ⟨1, 5, 9, []⟩ 1 ⟨[], [], []⟩).timers.find?
          (fun tm => tm.tid == 1) = some ⟨1, 5, ⟨1, 5, 9, []⟩, 0 + COLLECTOR_TIMEOUT⟩ ∧
      (fire 1 (setupInteractionHandler 0 5 ⟨1, 5, 9, []⟩ 1 ⟨[], [], []⟩)).2
        = [Effect.clearControls 5] ∧
      (∀ h' ∈ (fire 1 (setupInteractionHandler 0 5 ⟨1, 5, 9, []⟩ 1 ⟨[], [], []⟩)).1.listeners,
        h'.msgId ≠ 5) ∧
      (∀ i : Interaction, i.msgId = 5 →
        dispatch i (fire 1 (setupInteractionHandler 0 5 ⟨1, 5, 9, []⟩ 1 ⟨[], [], []⟩)).1
          = [])) :=
  ⟨⟨by decide, by decide, by decide, by decide⟩,
    claim_C9_fixed_ttl ⟨[], [], []⟩ 5 0 1 ⟨1, 5, 9, []⟩ [⟨5, some 9, "next", some 1⟩]
      (by decide) (by decide) (by decide) (by decide)⟩

/-! ## Claim C10: description length bound -/

theorem string_length_mk (l : List Char) : (String.mk l).length = l.length := rfl

theorem string_data_mk (l : List Char) : (String.mk l).data = l := rfl

theorem string_length_append (a b : String) : (a ++ b).length = a.length + b.length := by
  cases a
  cases b
  rw [show (String.mk _ ++ String.mk _) = String.mk (_ ++ _) from rfl]
  rw [string_length_mk, string_length_mk, string_length_mk, List.length_append]

theorem jsTake_length_le (s : String) (n : Nat) : (jsTake s n).length ≤ n := by
  rw [jsTake, string_length_mk]
  rw [List.length_take]
  omega

theorem string_data_append (a b : String) : (a ++ b).data = a.data ++ b.data := by
  cases a
  cases b
  rfl

theorem countP_le_dropWhile_length (p : Char → Bool) :
    ∀ l : List Char, l.countP (fun a => !p a) ≤ (l.dropWhile p).length := by
  intro l
  induction l with
  | nil => simp
  | cons a as ih =>
    by_cases hp : p a
    · rw [List.dropWhile_cons_of_pos hp, List.countP_cons]
      simp [hp, ih]
    · rw [List.dropWhile_cons_of_neg hp]
      calc (a :: as).countP (fun a => !p a) ≤ (a :: as).length := List.countP_le_length _
        _ = (a :: as).length := rfl

theorem countP_reverse (p : Char → Bool) (l : List Char) :
    l.reverse.countP p = l.countP p :=
  (List.reverse_perm l).countP_eq p

/-- Trimming removes only whitespace, so the trimmed length is at least the
number of non-whitespace characters. -/
theorem jsTrim_length_ge (s : String) :
    s.data.countP (fun c => !isWs c) ≤ (jsTrim s).length := by
  rw [jsTrim, string_length_mk, List.length_reverse]
  have h1 : s.data.countP (fun c => !isWs c)
      = (s.data.dropWhile isWs).countP (fun c => !isWs c) := by
    conv_lhs => rw [← List.takeWhile_append_dropWhile (p := isWs) (l := s.data)]
    rw [List.countP_append]
    have : (s.data.takeWhile isWs).countP (fun c => !isWs c) = 0 := by
      rw [List.countP_eq_zero]
      intro a ha
      simp [List.mem_takeWhile_imp ha]
    omega
  rw [h1, ← countP_reverse]
  exact countP_le_dropWhile_length isWs _

theorem countP_replicate_self (p : Char → Bool) (c : Char) (hp : p c = true) :
    ∀ n : Nat, (List.replicate n c).countP p = n := by
  intro n
  induction n with
  | zero => rfl
  | succ k ih =>
    rw [List.replicate_succ, List.countP_cons, ih, hp]
    rfl

/-- C10: the page description is always at most 4096 characters: an empty
page yields the fixed non-empty placeholder, and otherwise the assembled
(trimmed) text is kept as is when it fits, and is cut to its first 4090
characters plus a newline and an ellipsis marker (4094 characters in total)
when it exceeds 4096; on a concrete card whose name is 4200 characters long
the truncation branch genuinely fires. -/
theorem claim_C10_description :
    (∀ (remoji cemoji : String → Option String) (cards : List Card),
      (buildCardDescription remoji cemoji cards).length ≤ 4096) ∧
    (∀ (remoji cemoji : String → Option String) (cards : List Card),
      buildCardDescription remoji cemoji cards
        = if cards.isEmpty then "No cards found for this page."
          else if 4096 < (assembleDescription remoji cemoji cards).length
          then jsTake (assembleDescription remoji cemoji cards) 4090 ++ "\n..."
          else assembleDescription remoji cemoji cards) ∧
    (∀ remoji cemoji : String → Option String,
      buildCardDescription remoji cemoji [] = "No cards found for this page.") ∧
    "No cards found for this page." ≠ "" ∧
    (4096 < (assembleDescription (fun _ => none) (fun _ => none) [longCard]).length ∧
      buildCardDescription (fun _ => none) (fun _ => none) [longCard]
        = jsTake (assembleDescription (fun _ => none) (fun _ => none) [longCard]) 4090
          ++ "\n...") := by
  have hlen : 4096 < (assembleDescription (fun _ => none) (fun _ => none) [longCard]).length := by
    have hassemble : assembleDescription (fun _ => none) (fun _ => none) [longCard]
        = jsTrim ("" ++ rarityHeading (fun _ => none) "mythic" 1
            ++ ("" ++ cardLine (fun _ => none) longCard) ++ "\n") := rfl
    rw [hassemble]
    refine lt_of_lt_of_le ?_ (jsTrim_length_ge _)
    simp only [cardLine, longCard, string_data_append, string_data_mk, List.countP_append]
    rw [countP_replicate_self (fun c => !isWs c) 'x' (by decide)]
    omega
  refine ⟨?_, fun _ _ _ => rfl, fun _ _ => rfl, by decide, hlen, ?_⟩
  · intro remoji cemoji cards
    rw [buildCardDescription]
    split
    · decide
    · dsimp only
      split
      · have h1 := jsTake_length_le (assembleDescription remoji cemoji cards) 4090
        rw [string_length_append]
        have h2 : ("\n...").length = 4 := rfl
        omega
      · rename_i hl
        omega
  · rw [buildCardDescription]
    rw [if_neg (by decide)]
    dsimp only
    rw [if_pos hlen]

end Cabinet
